import Mathlib

/-!
Verification development for the orbit-sql repository: a shallow embedding of
its record/relational mapping layer (build-models.ts, utils.ts, processor.ts,
migrate-models.ts) together with theorems settling the specification claims.

JavaScript values are modelled by an explicit `Value` type; JavaScript objects
built by successive key assignments are modelled as write-logs
(`List (String × α)`) read through `lookupLast`, which returns the most recent
binding, matching object-assignment semantics.
-/

set_option autoImplicit false

namespace OrbitSql

/-- A JavaScript `Date` retains the argument it was constructed from. -/
inductive DateArg where
  | fromString (s : String)
  | fromNumber (n : Int)
deriving DecidableEq, Repr

/-- JavaScript values as they occur in rows and payloads of this code base:
`null`, booleans, numbers (integral stored values), strings, dates.
A missing object key (`undefined`) is modelled by the absence of a binding. -/
inductive Value where
  | vNull
  | vBool (b : Bool)
  | vInt (n : Int)
  | vStr (s : String)
  | vDate (d : DateArg)
deriving DecidableEq, Repr

/-- `typeof value === 'string'`. -/
def Value.isString : Value → Bool
  | .vStr _ => true
  | _ => false

/-- `typeof value === 'number'`. -/
def Value.isNumber : Value → Bool
  | .vInt _ => true
  | _ => false

/-- JavaScript truthiness of a (defined) value. -/
def Value.truthy : Value → Bool
  | .vNull => false
  | .vBool b => b
  | .vInt n => n != 0
  | .vStr s => s != ""
  | .vDate _ => true

/-- `value != null` for a present binding (loose inequality excludes only
`null`, and `undefined` is modelled by a missing binding). -/
def Value.notNull : Value → Bool
  | .vNull => false
  | _ => true

/-- Read a JavaScript object modelled as a write-log: the latest binding of the
key wins, `none` when the key was never assigned (`undefined`). -/
def lookupLast {α : Type} : List (String × α) → String → Option α
  | [], _ => none
  | (k', v) :: rest, k =>
    match lookupLast rest k with
    | some v' => some v'
    | none => if k' = k then some v else none

/-- Modelled from the spec: `underscore` from the external `inflected` package
(§6 naming convention, "underscored" names) — lowercases, inserting `_` before
an interior uppercase letter and mapping `-` to `_`. -/
def underscoreChars : Bool → List Char → List Char
  | _, [] => []
  | first, c :: rest =>
    if c.isUpper then
      (if first then [c.toLower] else ['_', c.toLower]) ++ underscoreChars false rest
    else
      (if c = '-' then '_' else c) :: underscoreChars false rest

/-- Modelled from the spec: `underscore` from the external `inflected` package. -/
def underscore (s : String) : String := ⟨underscoreChars true s.data⟩

/-- Modelled from the spec: pluralization from the external `inflected` package
(§6, "pluralized" names); the regular suffix rule (already-plural names are
kept), which covers every type and relationship name appearing in this
repository. -/
def pluralize (s : String) : String :=
  if s.data.getLast? = some 's' then s else s ++ "s"

/-- Modelled from the spec: `tableize` from the external `inflected` package —
underscored, pluralized name (§6, "table = underscored/pluralized type name"). -/
def tableize (s : String) : String := pluralize (underscore s)

/-- Modelled from the spec: `foreignKey` from the external `inflected` package —
underscored name plus the key suffix (§6, "relationship key column =
underscored relationship name + key suffix"). -/
def foreignKey (s : String) : String := underscore s ++ "_id"

/-- From `src/utils.ts` `tableizeJoinTable`: the two tableized names are sorted
(JavaScript `Array.prototype.sort` on two strings keeps the pair in place
unless the second compares smaller) and joined with `_`. -/
def tableizeJoinTable (table1 : String) (table2 : String) : String :=
  let t1 := tableize table1
  let t2 := tableize table2
  if t2 < t1 then t2 ++ "_" ++ t1 else t1 ++ "_" ++ t2

/-- From `src/utils.ts` `castAttributeValue` (the version computing
`value === 1` for booleans): booleans come back from storage as the strict
comparison with the number `1`; datetime attributes stored as string/number
become `Date` values; everything else passes through. -/
def castAttributeValue (value : Value) (type : Option String) : Value :=
  match type, value with
  | some "boolean", v => .vBool (v == .vInt 1)
  | some "datetime", .vStr s => .vDate (.fromString s)
  | some "datetime", .vInt n => .vDate (.fromNumber n)
  | _, v => v

/-- From the later `castAttributeValue` in this repository (the utils version
shipped with `src/processor.ts`, computing `Boolean(value)` for booleans). -/
def castAttributeValueNew (value : Value) (type : Option String) : Value :=
  match type, value with
  | some "boolean", v => .vBool v.truthy
  | some "datetime", .vStr s => .vDate (.fromString s)
  | some "datetime", .vInt n => .vDate (.fromNumber n)
  | _, v => v

/-- Modelled from the spec: `RecordNotFoundException` from the external
`@orbit/data` package — carries the addressed `{type, id}`; its human-readable
message has the form `Record not found: {type}:{id}` (§6 errors; the format is
also asserted verbatim by this repository's test suite). -/
structure RecordNotFoundException where
  type : String
  id : String
deriving DecidableEq, Repr

/-- Modelled from the spec: the message of `RecordNotFoundException`. -/
def RecordNotFoundException.message (e : RecordNotFoundException) : String :=
  "Record not found: " ++ e.type ++ ":" ++ e.id

/-- From `src/build-models.ts` `BaseModel.createNotFoundError`: the error
installed for every missed row fetch constructs the exception with the
hardcoded arguments `'any', 'any'` (the line that would have read the actual
identity is commented out in the source). -/
def createNotFoundError : RecordNotFoundException :=
  { type := "any", id := "any" }

/-- Relationship kind of the schema registry (`type` field of a relationship
declaration in `@orbit/data` schemas): single-valued or collection-valued. -/
inductive RelKind where
  | hasOne
  | hasMany
deriving DecidableEq, Repr

/-- A declared relationship: kind, target type (`model`) and inverse name.
`model` and `inverse` are optional exactly as in the schema input, where either
may be missing (the code checks and rejects that case). -/
structure RelationshipDef where
  kind : RelKind
  model : Option String
  inverse : Option String
deriving DecidableEq, Repr

/-- A declared type: attribute name → primitive type name, and relationship
name → relationship declaration, in declaration order. -/
structure ModelDef where
  attributes : List (String × String)
  relationships : List (String × RelationshipDef)
deriving DecidableEq, Repr

/-- The schema registry: type name → type declaration. -/
abbrev Schema := List (String × ModelDef)

/-- The declaration of a type in the schema (`schema.models[type]`). -/
def getModel (schema : Schema) (type : String) : Option ModelDef :=
  lookupLast schema type

/-- The attributes iterated by `schema.eachAttribute(type, ...)`. -/
def attributesOf (schema : Schema) (type : String) : List (String × String) :=
  match getModel schema type with
  | some m => m.attributes
  | none => []

/-- The relationships iterated by `schema.eachRelationship(type, ...)`. -/
def relationshipsOf (schema : Schema) (type : String) : List (String × RelationshipDef) :=
  match getModel schema type with
  | some m => m.relationships
  | none => []

/-- `schema.getRelationship(type, name)`. -/
def getRelationship (schema : Schema) (type : String) (name : String) :
    Option RelationshipDef :=
  lookupLast (relationshipsOf schema type) name

/-- The three objection relation strategies used by `relationMappings`. -/
inductive RelationStrategy where
  | belongsToOne
  | hasManyRelation
  | manyToMany
deriving DecidableEq, Repr

/-- A compiled relation mapping, as assembled in
`src/build-models.ts` `relationMappings`: the strategy, the target model's
type, the `join.from` column, the optional `join.through` pair for join
tables, and the `join.to` column. -/
structure RelationMapping where
  relation : RelationStrategy
  modelClassType : String
  joinFrom : String
  through : Option (String × String)
  joinTo : String
deriving DecidableEq, Repr

/-- From `src/build-models.ts` `relationMappings` (the callback body run for
one declared relationship `property` of `type`): rejects a relationship
missing `inverse` or `model`; a `hasOne` relationship becomes a belongs-to-one
join from this table's foreign-key column to the target table's `id`;
otherwise the inverse's kind on the target decides: `hasMany` inverse yields a
many-to-many join table, any other (single-valued) inverse yields a has-many
join to the target table's inverse foreign-key column.  (The polymorphic
`Array.isArray(type)` rejection is unrepresentable here because `model` is a
single optional name.)  A missing inverse declaration on the target makes
`schema.getRelationship` fail, modelled as an error. -/
def relationMappingFor (schema : Schema) (type : String) (property : String)
    (relDef : RelationshipDef) : Except String RelationMapping :=
  match relDef.model, relDef.inverse with
  | some target, some inverse =>
    let tableName := tableize type
    let relationColumnName := foreignKey property
    let inverseColumnName := foreignKey inverse
    let relationTableName := tableize target
    match relDef.kind with
    | .hasOne =>
      .ok { relation := .belongsToOne
            modelClassType := target
            joinFrom := tableName ++ "." ++ relationColumnName
            through := none
            joinTo := relationTableName ++ ".id" }
    | .hasMany =>
      match getRelationship schema target inverse with
      | none => .error "getRelationship: relationship is not defined"
      | some inverseDef =>
        match inverseDef.kind with
        | .hasMany =>
          let joinTableName := tableizeJoinTable property inverse
          .ok { relation := .manyToMany
                modelClassType := target
                joinFrom := tableName ++ ".id"
                through := some (joinTableName ++ "." ++ relationColumnName,
                                 joinTableName ++ "." ++ inverseColumnName)
                joinTo := relationTableName ++ ".id" }
        | .hasOne =>
          .ok { relation := .hasManyRelation
                modelClassType := target
                joinFrom := tableName ++ ".id"
                through := none
                joinTo := relationTableName ++ "." ++ inverseColumnName }
  | _, _ =>
    .error "SQLSource: \x22type\x22 and \x22inverse\x22 are required on a relationship"

/-- The data of one synthesized model class that is observable at registry
level: its orbit type and its table name (`src/build-models.ts`). -/
structure ModelEntry where
  orbitType : String
  tableName : String
deriving DecidableEq, Repr

/-- The per-type model registry passed through `buildModel`. -/
abbrev ModelRegistry := List (String × ModelEntry)

/-- From `src/build-models.ts` `buildModel`: if the type is already present in
the registry the existing class is returned and nothing changes; otherwise a
new class is registered for the type before anything can recurse into it (the
relation mappings are a lazy getter, so registration itself never re-enters
`buildModel`), which is the memoization that makes cyclic relationship graphs
safe. -/
def buildModel (type : String) (models : ModelRegistry) :
    ModelRegistry × ModelEntry :=
  match lookupLast models type with
  | some m => (models, m)
  | none =>
    let m : ModelEntry := { orbitType := type, tableName := tableize type }
    (models ++ [(type, m)], m)

/-- From `src/build-models.ts` `buildModels`: builds the registry by running
`buildModel` over every declared type. -/
def buildModels (schema : Schema) : ModelRegistry :=
  schema.foldl (fun models entry => (buildModel entry.1 models).1) []

/-- Helper for `resolveRelationMappings`: processes the remaining declared
relationships in order; a thrown error aborts the whole getter.  For a
well-formed relationship the target model is resolved through `buildModel`
(threading the registry, which may grow) before the mapping is compiled. -/
def resolveRelMapsGo (schema : Schema) (type : String) :
    List (String × RelationshipDef) → ModelRegistry →
    Except String (ModelRegistry × List (String × RelationMapping))
  | [], models => .ok (models, [])
  | (property, relDef) :: rest, models =>
    match relDef.model, relDef.inverse with
    | some target, some _ =>
      let step := buildModel target models
      match relationMappingFor schema type property relDef with
      | .error e => .error e
      | .ok mapping =>
        match resolveRelMapsGo schema type rest step.1 with
        | .error e => .error e
        | .ok result => .ok (result.1, (property, mapping) :: result.2)
    | _, _ =>
      .error "SQLSource: \x22type\x22 and \x22inverse\x22 are required on a relationship"

/-- From `src/build-models.ts` `relationMappings` (the whole getter, as forced
for one type): walks the type's declared relationships, resolving each target
model through `buildModel` and compiling each mapping; the first malformed
relationship aborts the getter. -/
def resolveRelationMappings (schema : Schema) (type : String)
    (models : ModelRegistry) :
    Except String (ModelRegistry × List (String × RelationMapping)) :=
  resolveRelMapsGo schema type (relationshipsOf schema type) models

/-- A filter specifier of a query expression: the implemented kind is
`attribute` (comparator, attribute, value); any other kind is carried with its
kind string. -/
inductive FilterSpecifier where
  | attribute (op : String) (attr : String) (value : Value)
  | unsupported (kind : String)
deriving DecidableEq, Repr

/-- The `kind` field of a filter specifier. -/
def FilterSpecifier.kind : FilterSpecifier → String
  | .attribute _ _ _ => "attribute"
  | .unsupported k => k

/-- Whether a filter specifier has the implemented `attribute` kind. -/
def FilterSpecifier.isAttribute : FilterSpecifier → Bool
  | .attribute _ _ _ => true
  | .unsupported _ => false

/-- A sort specifier: the implemented kind is `attribute` (attribute and
`ascending`/`descending` order); any other kind is carried with its kind. -/
inductive SortSpecifier where
  | attribute (attr : String) (order : String)
  | unsupported (kind : String)
deriving DecidableEq, Repr

/-- The `kind` field of a sort specifier. -/
def SortSpecifier.kind : SortSpecifier → String
  | .attribute _ _ => "attribute"
  | .unsupported k => k

/-- A page specifier: the implemented kind is `offsetLimit`; any other kind is
carried with its kind string. -/
inductive PageSpecifier where
  | offsetLimit (offset : Option Int) (limit : Option Int)
  | unsupported (kind : String)
deriving DecidableEq, Repr

/-- A `findRecords`/`findRelatedRecords` query expression's optional
filter/sort/page parts. -/
structure FindRecordsExpression where
  sort : Option (List SortSpecifier)
  filter : Option (List FilterSpecifier)
  page : Option PageSpecifier
deriving DecidableEq, Repr

/-- One clause applied to an objection query builder by the pipeline. -/
inductive QBClause where
  | whereEq (attr : String) (v : Value)
  | whereCmp (attr : String) (cmp : String) (v : Value)
  | orderBy (attr : String) (dir : String)
  | limitBy (n : Int)
  | offsetBy (n : Int)
deriving DecidableEq, Repr

/-- The query builder, modelled as the list of clauses applied to it. -/
abbrev QB := List QBClause

/-- `QueryExpressionParseError` from `@orbit/data`, by its message. -/
structure QueryExpressionParseError where
  message : String
deriving DecidableEq, Repr

/-- From `src/processor.ts` `parseQueryExpressionSort` (loop body): an
`attribute` sort orders by the attribute (descending exactly when the order is
`descending`); any other kind throws a parse error naming the kind. -/
def parseSortList (qb : QB) :
    List SortSpecifier → Except QueryExpressionParseError QB
  | [] => .ok qb
  | .attribute attr order :: rest =>
    if order = "descending" then parseSortList (qb ++ [.orderBy attr "desc"]) rest
    else parseSortList (qb ++ [.orderBy attr "asc"]) rest
  | .unsupported k :: _ =>
    .error { message := "Sort specifier " ++ k ++ " not recognized for SQLSource." }

/-- From `src/processor.ts` `parseQueryExpressionSort`. -/
def parseQueryExpressionSort (qb : QB) (expression : FindRecordsExpression) :
    Except QueryExpressionParseError QB :=
  match expression.sort with
  | none => .ok qb
  | some sorts => parseSortList qb sorts

/-- From `src/processor.ts` `parseQueryExpressionFilter` (loop body): an
`attribute` filter adds a where clause for its comparator (a comparator
outside equal/gt/lt/gte/lte falls through the `switch` adding nothing); a
specifier of any other kind is skipped — the `if` has no `else` branch, so no
error is raised for it. -/
def applyFilter (qb : QB) : FilterSpecifier → QB
  | .attribute op attr value =>
    match op with
    | "equal" => qb ++ [.whereEq attr value]
    | "gt" => qb ++ [.whereCmp attr ">" value]
    | "lt" => qb ++ [.whereCmp attr "<" value]
    | "gte" => qb ++ [.whereCmp attr ">=" value]
    | "lte" => qb ++ [.whereCmp attr "<=" value]
    | _ => qb
  | .unsupported _ => qb

/-- From `src/processor.ts` `parseQueryExpressionFilter`: total — it can never
throw. -/
def parseQueryExpressionFilter (qb : QB) (expression : FindRecordsExpression) : QB :=
  match expression.filter with
  | none => qb
  | some filters => filters.foldl applyFilter qb

/-- From `src/processor.ts` `parseQueryExpressionPage`: `offsetLimit` applies
the (truthy, i.e. present and non-zero) limit then offset; any other page kind
throws a parse error naming the kind. -/
def parseQueryExpressionPage (qb : QB) (expression : FindRecordsExpression) :
    Except QueryExpressionParseError QB :=
  match expression.page with
  | none => .ok qb
  | some (.offsetLimit offset limit) =>
    let qb1 := match limit with
      | some l => if l ≠ 0 then qb ++ [.limitBy l] else qb
      | none => qb
    let qb2 := match offset with
      | some o => if o ≠ 0 then qb1 ++ [.offsetBy o] else qb1
      | none => qb1
    .ok qb2
  | some (.unsupported k) =>
    .error { message := "Page specifier " ++ k ++ " not recognized for SQLSource." }

/-- From `src/processor.ts` `parseQueryExpression`: sort, then filter, then
page; a thrown parse error aborts the query with no partial result. -/
def parseQueryExpression (qb : QB) (expression : FindRecordsExpression) :
    Except QueryExpressionParseError QB :=
  match parseQueryExpressionSort qb expression with
  | .error e => .error e
  | .ok qb1 => parseQueryExpressionPage (parseQueryExpressionFilter qb1 expression) expression

/-- The kind of the first sort specifier of an unimplemented kind, if any
(statement vocabulary for the pipeline theorems). -/
def firstUnsupportedSortKind : List SortSpecifier → Option String
  | [] => none
  | .attribute _ _ :: rest => firstUnsupportedSortKind rest
  | .unsupported k :: _ => some k

/-- A record identity `{type, id}`; also a stored row at the identity
granularity at which the identity-list fetch distinguishes rows. -/
structure Identity where
  type : String
  id : String
deriving DecidableEq, Repr

/-- Key iteration helper: JavaScript object keys in first-occurrence order. -/
def firstOccurAux (seen : List String) : List String → List String
  | [] => []
  | t :: rest =>
    if t ∈ seen then firstOccurAux seen rest
    else t :: firstOccurAux (t :: seen) rest

/-- From `src/processor.ts` `groupRecordsByType`: the object's keys — the
types of the input identities, in first-occurrence order. -/
def typesOf (records : List Identity) : List String :=
  firstOccurAux [] (records.map Identity.type)

/-- From `src/processor.ts` `groupRecordsByType`: the bucket for one type —
the ids of the input identities of that type, in input order. -/
def idsOfType (records : List Identity) (t : String) : List String :=
  (records.filter (fun r => r.type == t)).map Identity.id

/-- Modelled from the spec: objection `findByIds` — the batch fetch of the
rows of one type whose id is in the given list (§4.5 "batch fetch grouped by
type"), returned in table order. -/
def findByIds (db : List Identity) (t : String) (ids : List String) : List Identity :=
  db.filter (fun r => r.type == t && decide (r.id ∈ ids))

/-- From `src/processor.ts` `findRecords` (identity-list arm): the write-log
of the assignments `recordsById[record.id] = record.toOrbitRecord()` made
while iterating the grouped types — note the object is keyed by id alone. -/
def recordsByIdEntries (db : List Identity) (records : List Identity) :
    List (String × Identity) :=
  (typesOf records).flatMap
    (fun t => (findByIds db t (idsOfType records t)).map (fun r => (r.id, r)))

/-- From `src/processor.ts` `findRecords` (identity-list arm): each input
identity's id is looked up in the assembled map and misses are dropped
(`records.map(({id}) => recordsById[id]).filter(record => record)`); the
function is total — a missing row never raises. -/
def findRecordsByIdentities (db : List Identity) (records : List Identity) :
    List Identity :=
  records.filterMap (fun r => lookupLast (recordsByIdEntries db records) r.id)

/-- The author/article schema used throughout this repository's test suite:
an `author` has many `articles`, an `article` belongs to one `author` — a
cyclic relationship graph between the two types. -/
def demoSchema : Schema :=
  [("author",
    { attributes := [("firstName", "string"), ("lastName", "string")]
      relationships :=
        [("articles",
          { kind := .hasMany, model := some "article", inverse := some "author" })] }),
   ("article",
    { attributes := [("title", "string"), ("publishedOn", "date"),
        ("createdAt", "datetime"), ("updatedAt", "datetime")]
      relationships :=
        [("author",
          { kind := .hasOne, model := some "author", inverse := some "articles" }),
         ("tags",
          { kind := .hasMany, model := some "tag", inverse := some "articles" })] }),
   ("tag",
    { attributes := [("name", "string")]
      relationships :=
        [("articles",
          { kind := .hasMany, model := some "article", inverse := some "tags" })] })]

/-- A fetched row as the orbit layer sees it: the model's type, its `id`
field, and the `toJSON()` result object — attribute properties plus
`${property}Id` foreign-key properties (column name mapping already applied). -/
structure ModelRow where
  orbitType : String
  id : String
  result : List (String × Value)
deriving DecidableEq, Repr

/-- From `src/utils.ts` `toOrbitRecord`, attribute loop: for each declared
attribute whose row property is present and non-null (`result[property] !=
null`), the value cast by `castAttributeValue` is copied; an omitted or null
column contributes no key (never a null fill). -/
def collectAttrs (result : List (String × Value)) :
    List (String × String) → List (String × Value)
  | [] => []
  | (p, ty) :: rest =>
    match lookupLast result p with
    | some v =>
      if v.notNull then (p, castAttributeValue v (some ty)) :: collectAttrs result rest
      else collectAttrs result rest
    | none => collectAttrs result rest

/-- From `src/utils.ts` `toOrbitRecord`, relationship loop: a `hasOne`
relationship is embedded as `{type, id}` exactly when the row's
`${property}Id` property holds a truthy value (the `if (id)` test); a
`hasMany` relationship is never embedded.  A missing target type would embed
JavaScript `undefined` as the type, modelled by the `"undefined"` default. -/
def collectRels (result : List (String × Value)) :
    List (String × RelationshipDef) → List (String × (String × Value))
  | [] => []
  | (p, rd) :: rest =>
    match rd.kind with
    | .hasOne =>
      match lookupLast result (p ++ "Id") with
      | some v =>
        if v.truthy then
          (p, (rd.model.getD "undefined", v)) :: collectRels result rest
        else collectRels result rest
      | none => collectRels result rest
    | .hasMany => collectRels result rest

/-- The produced orbit record: identity plus optional attribute and (hasOne)
relationship maps. -/
structure OrbitRec where
  type : String
  id : String
  attributes : Option (List (String × Value))
  relationships : Option (List (String × (String × Value)))
deriving DecidableEq, Repr

/-- From `src/utils.ts` `toOrbitRecord`: the `attributes`/`relationships`
fields are attached only when at least one entry was copied (the source
assigns `record.attributes = attributes` inside the loop). -/
def toOrbitRecord (schema : Schema) (model : ModelRow) : OrbitRec :=
  let attrs := collectAttrs model.result (attributesOf schema model.orbitType)
  let rels := collectRels model.result (relationshipsOf schema model.orbitType)
  { type := model.orbitType
    id := model.id
    attributes := if attrs = [] then none else some attrs
    relationships := if rels = [] then none else some rels }

/-- Reading one attribute of a produced record. -/
def OrbitRec.attr (r : OrbitRec) (p : String) : Option Value :=
  match r.attributes with
  | some l => lookupLast l p
  | none => none

/-- Reading one embedded relationship of a produced record. -/
def OrbitRec.rel (r : OrbitRec) (p : String) : Option (String × Value) :=
  match r.relationships with
  | some l => lookupLast l p
  | none => none

/-- A stored article row whose foreign-key column holds the empty string —
non-null, but falsy. -/
def articleRowEmptyFk : ModelRow :=
  { orbitType := "article", id := "2"
    result := [("title", Value.vStr "A"), ("authorId", Value.vStr "")] }

/-- A stored article row with title and author foreign key populated. -/
def articleRowFull : ModelRow :=
  { orbitType := "article", id := "1"
    result := [("title", Value.vStr "Article 1"), ("authorId", Value.vStr "1")] }

/-- Relationship data carried by a write payload: a single identity (or null)
for a single-valued relationship, an identity list for a collection-valued
one. -/
inductive RelData where
  | one (data : Option Identity)
  | many (data : List Identity)
deriving DecidableEq, Repr

/-- An orbit record as received in a write operation's payload. -/
structure ORecord where
  type : String
  id : String
  attributes : Option (List (String × Value))
  relationships : Option (List (String × RelData))
deriving DecidableEq, Repr

/-- A property value assembled by `parseOrbitRecord`. -/
inductive PropValue where
  | val (v : Value)
  | idv (s : String)
  | relOne (id : Option String)
  | relMany (ids : List String)
  | ill
deriving DecidableEq, Repr

/-- From `src/processor.ts` `parseOrbitRecord`, attribute loop: each declared
attribute present on the payload (`!== undefined`, so an explicit null IS
copied) is carried over; undeclared payload keys are ignored because only the
schema's attributes are iterated. -/
def parseAttrsGo (m : List (String × Value)) :
    List (String × String) → List (String × PropValue)
  | [] => []
  | (p, _) :: rest =>
    match lookupLast m p with
    | some v => (p, .val v) :: parseAttrsGo m rest
    | none => parseAttrsGo m rest

/-- From `src/processor.ts` `parseOrbitRecord`: the attribute loop only runs
under the `if (record.attributes)` guard. -/
def parseAttrs (attrs : Option (List (String × Value)))
    (declared : List (String × String)) : List (String × PropValue) :=
  match attrs with
  | some m => parseAttrsGo m declared
  | none => []

/-- From `src/processor.ts` `parseOrbitRecord`, relationship loop: a declared
relationship present on the payload becomes a single id (or null) for
`hasOne`, a list of ids for `hasMany`.  Payload data shaped contrary to the
declared kind (an identity list under a `hasOne`, or a single identity under
a `hasMany`, where JavaScript would produce an `{id: undefined}` object or
throw on `.map`) is marked `ill`; no claim exercises those inputs. -/
def relPropOf (rd : RelationshipDef) (data : RelData) : PropValue :=
  match rd.kind, data with
  | .hasOne, .one d => .relOne (d.map Identity.id)
  | .hasMany, .many ds => .relMany (ds.map Identity.id)
  | .hasOne, .many _ => .ill
  | .hasMany, .one _ => .ill

def parseRelsGo (m : List (String × RelData)) :
    List (String × RelationshipDef) → List (String × PropValue)
  | [] => []
  | (p, rd) :: rest =>
    match lookupLast m p with
    | some data => (p, relPropOf rd data) :: parseRelsGo m rest
    | none => parseRelsGo m rest

/-- From `src/processor.ts` `parseOrbitRecord`: the relationship loop only
runs under the `if (record.relationships)` guard. -/
def parseRels (rels : Option (List (String × RelData)))
    (declared : List (String × RelationshipDef)) : List (String × PropValue) :=
  match rels with
  | some m => parseRelsGo m declared
  | none => []

/-- From `src/processor.ts` `parseOrbitRecord`: a truthy `record.id` is
copied, then the declared attributes present on the payload, then the
declared relationships present on the payload. -/
def parseOrbitRecord (schema : Schema) (record : ORecord) :
    List (String × PropValue) :=
  (if record.id ≠ "" then [("id", PropValue.idv record.id)] else [])
    ++ parseAttrs record.attributes (attributesOf schema record.type)
    ++ parseRels record.relationships (relationshipsOf schema record.type)

/-- The stored state of one row visible to the merge claims: attribute
columns, single-valued foreign keys, collection-valued link sets. -/
structure StoredRecord where
  attrs : List (String × Value)
  fks : List (String × Option String)
  links : List (String × List String)
deriving DecidableEq, Repr

/-- Modelled from the spec: the new value of one attribute column after the
engine applies the parsed properties — overwritten exactly when the column is
named by an attribute property (§4.4 "only attributes present in the payload
are overwritten"). -/
def patchAttrColumn (props : List (String × PropValue)) (k : String)
    (old : Value) : Value :=
  match lookupLast props k with
  | some (.val v) => v
  | _ => old

/-- Modelled from the spec: the new value of one single-valued relationship's
foreign key after the engine applies the parsed properties. -/
def patchFkColumn (props : List (String × PropValue)) (k : String)
    (old : Option String) : Option String :=
  match lookupLast props k with
  | some (.relOne i) => i
  | _ => old

/-- Modelled from the spec: the new link set of one collection-valued
relationship after the engine applies the parsed properties (§4.4 "for
relationships present in the payload, the full related set is replaced"). -/
def patchLinks (props : List (String × PropValue)) (k : String)
    (old : List String) : List String :=
  match lookupLast props k with
  | some (.relMany ids) => ids
  | _ => old

/-- Modelled from the spec: `upsertGraph(data, {relate: true, unrelate:
true})` on an existing row — the engine applies exactly the properties named
in `data`; every unnamed column and relationship keeps its prior stored
value.  Composed with the source's `parseOrbitRecord`, which restricts `data`
to the payload's keys, this is `updateRecord`'s storage effect. -/
def updateStored (s : StoredRecord) (props : List (String × PropValue)) :
    StoredRecord :=
  { attrs := s.attrs.map (fun e => (e.1, patchAttrColumn props e.1 e.2))
    fks := s.fks.map (fun e => (e.1, patchFkColumn props e.1 e.2))
    links := s.links.map (fun e => (e.1, patchLinks props e.1 e.2)) }

/-- From `src/build-models.ts` `$beforeInsert` (which sets `createdAt` to the
server time after payload properties are assigned) composed with the engine
insert, modelled from the spec for the engine part: the inserted row's
`created_at` is the hook's server time, and `updated_at` is the payload's
value when the payload carries one as a copied attribute property, else the
server-side default. -/
def insertTimestamps (schema : Schema) (record : ORecord) (now : String) :
    Value × Value :=
  (Value.vStr now,
   match lookupLast (parseOrbitRecord schema record) "updatedAt" with
   | some (.val v) => v
   | _ => Value.vStr now)

/-- From `src/build-models.ts` `$beforeUpdate` (which sets `updatedAt` to the
server time) composed with the engine patch, modelled from the spec for the
engine part: the patched row's `updated_at` is the hook's server time, and
`created_at` is the payload's value when the payload carries one as a copied
attribute property, else the prior stored value. -/
def updateTimestamps (schema : Schema) (record : ORecord)
    (priorCreatedAt : Value) (now : String) : Value × Value :=
  (match lookupLast (parseOrbitRecord schema record) "createdAt" with
   | some (.val v) => v
   | _ => priorCreatedAt,
   Value.vStr now)

/-- An update payload touching only `firstName`. -/
def authorPayload : ORecord :=
  { type := "author", id := "1"
    attributes := some [("firstName", Value.vStr "Paul")]
    relationships := none }

/-- The stored author row before the update. -/
def authorStored : StoredRecord :=
  { attrs := [("firstName", Value.vStr "P"), ("lastName", Value.vStr "Chavard")]
    fks := []
    links := [("articles", ["1", "2"])] }

/-- An add-record payload smuggling an `updatedAt` value (the test schema
declares `updatedAt` as a datetime attribute of `article`). -/
def articlePayloadUpdatedAt : ORecord :=
  { type := "article", id := "1"
    attributes := some [("title", Value.vStr "T"),
      ("updatedAt", Value.vStr "1999-01-01T00:00:00.000Z")]
    relationships := none }

/-- An update payload smuggling a `createdAt` value. -/
def articlePayloadCreatedAt : ORecord :=
  { type := "article", id := "1"
    attributes := some [("createdAt", Value.vStr "1999-01-01T00:00:00.000Z")]
    relationships := none }

end OrbitSql

namespace OrbitSql

/-- C10: the two `castAttributeValue` implementations (strict `value === 1`
versus `Boolean(value)`) agree on boolean attributes for the stored integers
0 and 1, both mapping 1 to `true` and 0 to `false`. -/
theorem castAttributeValue_boolean_agree :
    castAttributeValue (Value.vInt 1) (some "boolean") = Value.vBool true ∧
    castAttributeValue (Value.vInt 0) (some "boolean") = Value.vBool false ∧
    castAttributeValueNew (Value.vInt 1) (some "boolean") = Value.vBool true ∧
    castAttributeValueNew (Value.vInt 0) (some "boolean") = Value.vBool false ∧
    castAttributeValue (Value.vInt 1) (some "boolean")
      = castAttributeValueNew (Value.vInt 1) (some "boolean") ∧
    castAttributeValue (Value.vInt 0) (some "boolean")
      = castAttributeValueNew (Value.vInt 0) (some "boolean") := by
  refine ⟨rfl, by decide, rfl, by decide, rfl, by decide⟩

/-- C1: evaluating the code at the failing input — the exception produced for a
missed `{type: "author", id: "1"}` fetch is built by `createNotFoundError`,
which hardcodes `'any','any'`: its message is `Record not found: any:any`, not
`Record not found: author:1`, and it does not carry the addressed identity. -/
theorem createNotFoundError_hardcoded :
    createNotFoundError.message = "Record not found: any:any" ∧
    createNotFoundError.message ≠ "Record not found: author:1" ∧
    createNotFoundError ≠ { type := "author", id := "1" } := by
  refine ⟨rfl, by decide, by decide⟩

/-- C7: the derived join-table name is symmetric in its two arguments, and
equals the two tableized (underscored/pluralized) relationship names sorted
lexicographically and joined with `_`. -/
theorem tableizeJoinTable_comm (a b : String) :
    tableizeJoinTable a b = tableizeJoinTable b a ∧
    tableizeJoinTable a b
      = min (tableize a) (tableize b) ++ "_" ++ max (tableize a) (tableize b) := by
  unfold tableizeJoinTable
  rcases lt_trichotomy (tableize a) (tableize b) with h | h | h
  · rw [if_neg (asymm h), if_pos h, min_eq_left h.le, max_eq_right h.le]
    exact ⟨rfl, rfl⟩
  · rw [h]
    simp
  · rw [if_pos h, if_neg (asymm h), min_eq_right h.le, max_eq_left h.le]
    exact ⟨rfl, rfl⟩

theorem lookupLast_append_of_some {α : Type} {ys : List (String × α)} {k : String}
    {v : α} (xs : List (String × α)) (h : lookupLast ys k = some v) :
    lookupLast (xs ++ ys) k = some v := by
  induction xs with
  | nil => simpa using h
  | cons p xs ih => simp [lookupLast, ih]

theorem lookupLast_append_of_none {α : Type} {ys : List (String × α)} {k : String}
    (xs : List (String × α)) (h : lookupLast ys k = none) :
    lookupLast (xs ++ ys) k = lookupLast xs k := by
  induction xs with
  | nil => simpa using h
  | cons p xs ih => simp [lookupLast, ih]

theorem lookupLast_singleton {α : Type} (k0 k : String) (v0 : α) :
    lookupLast [(k0, v0)] k = if k0 = k then some v0 else none := by
  simp [lookupLast]

theorem lookupLast_buildModel_self (type : String) (models : ModelRegistry) :
    lookupLast (buildModel type models).1 type = some (buildModel type models).2 := by
  unfold buildModel
  cases h : lookupLast models type with
  | some m => simp [h]
  | none =>
    simp only [h]
    exact lookupLast_append_of_some models (by simp [lookupLast_singleton])

theorem lookupLast_buildModel_preserve (type t : String) (models : ModelRegistry)
    (m : ModelEntry) (h : lookupLast models t = some m) :
    lookupLast (buildModel type models).1 t = some m := by
  unfold buildModel
  cases h' : lookupLast models type with
  | some _ => simpa [h'] using h
  | none =>
    simp only [h']
    have ht : type ≠ t := by
      rintro rfl
      rw [h] at h'
      cases h'
    rw [lookupLast_append_of_none models (by simp [lookupLast_singleton, ht])]
    exact h

theorem buildModelsGo_lookup (l : Schema) (models : ModelRegistry) (t : String)
    (h : t ∈ l.map Prod.fst ∨ ∃ m, lookupLast models t = some m) :
    ∃ m, lookupLast (l.foldl (fun ms e => (buildModel e.1 ms).1) models) t = some m := by
  induction l generalizing models with
  | nil =>
    rcases h with h | h
    · simp at h
    · exact h
  | cons e l ih =>
    simp only [List.foldl_cons]
    apply ih
    rcases h with h | ⟨m, hm⟩
    · rcases (by simpa using h : t = e.1 ∨ t ∈ l.map Prod.fst) with rfl | h'
      · exact Or.inr ⟨_, lookupLast_buildModel_self e.1 models⟩
      · exact Or.inl h'
    · exact Or.inr ⟨m, lookupLast_buildModel_preserve e.1 t models m hm⟩

/-- C8: the model registry is memoized — a `buildModel` call for a type already
present in the registry returns the existing entry and leaves the registry
unchanged; and after `buildModels` every declared type (cyclic relationship
graphs included, since nothing here constrains the schema) has exactly its
one registered entry, which any further `buildModel` call returns without
touching the registry.  Termination for arbitrary (hence cyclic) schemas is
witnessed by `buildModel`, `buildModels` and `resolveRelationMappings` being
total structural recursions: registration precedes any resolution of a
relationship's target, so resolving mappings never re-enters a type's build. -/
theorem buildModel_memoized :
    (∀ (type : String) (models : ModelRegistry) (m : ModelEntry),
      lookupLast models type = some m → buildModel type models = (models, m)) ∧
    (∀ (schema : Schema), ∀ t ∈ schema.map Prod.fst,
      ∃ m : ModelEntry, lookupLast (buildModels schema) t = some m ∧
        buildModel t (buildModels schema) = (buildModels schema, m)) := by
  constructor
  · intro type models m h
    unfold buildModel
    rw [h]
  · intro schema t ht
    obtain ⟨m, hm⟩ := buildModelsGo_lookup schema [] t (Or.inl ht)
    have hm2 : lookupLast (buildModels schema) t = some m := hm
    refine ⟨m, hm2, ?_⟩
    unfold buildModel
    rw [hm2]

/-- Witness for C8 on the concrete cyclic author/article/tag schema. -/
theorem buildModel_memoized_witness :
    buildModel "author" (buildModels demoSchema)
      = (buildModels demoSchema, { orbitType := "author", tableName := "authors" }) :=
  buildModel_memoized.1 "author" (buildModels demoSchema)
    { orbitType := "author", tableName := "authors" } (by decide)

/-- C2: the compiled relational strategy is a function of the relationship's
kind and its inverse's kind — `hasOne` always compiles to an owned foreign key
(belongs-to-one join from this table's `{relationship}_id` column to the
target table's `id`); `hasMany` with a single-valued inverse compiles to a
has-many join to the target table's `{inverse}_id` column; `hasMany` with a
collection-valued inverse compiles to a two-column join table. -/
theorem relationMappings_strategy (schema : Schema)
    (type property target inverse : String) (relDef : RelationshipDef)
    (hm : relDef.model = some target) (hi : relDef.inverse = some inverse) :
    (relDef.kind = .hasOne →
      relationMappingFor schema type property relDef
        = .ok { relation := .belongsToOne
                modelClassType := target
                joinFrom := tableize type ++ "." ++ foreignKey property
                through := none
                joinTo := tableize target ++ ".id" }) ∧
    (∀ inverseDef : RelationshipDef,
      getRelationship schema target inverse = some inverseDef →
      (relDef.kind = .hasMany → inverseDef.kind = .hasOne →
        relationMappingFor schema type property relDef
          = .ok { relation := .hasManyRelation
                  modelClassType := target
                  joinFrom := tableize type ++ ".id"
                  through := none
                  joinTo := tableize target ++ "." ++ foreignKey inverse }) ∧
      (relDef.kind = .hasMany → inverseDef.kind = .hasMany →
        relationMappingFor schema type property relDef
          = .ok { relation := .manyToMany
                  modelClassType := target
                  joinFrom := tableize type ++ ".id"
                  through := some
                    (tableizeJoinTable property inverse ++ "." ++ foreignKey property,
                     tableizeJoinTable property inverse ++ "." ++ foreignKey inverse)
                  joinTo := tableize target ++ ".id" })) := by
  obtain ⟨kind, model, inv⟩ := relDef
  dsimp only at hm hi
  subst hm
  subst hi
  refine ⟨?_, ?_⟩
  · rintro rfl
    rfl
  · intro inverseDef hinv
    refine ⟨?_, ?_⟩
    · rintro rfl h1
      simp only [relationMappingFor, hinv, h1]
    · rintro rfl h2
      simp only [relationMappingFor, hinv, h2]

theorem tableizeJoinTable_tags_articles :
    tableizeJoinTable "tags" "articles" = "articles_tags" := by
  have h : ("articles" : String) < "tags" := String.lt_iff_toList_lt.mpr (by decide)
  simp only [tableizeJoinTable]
  rw [show tableize "articles" = "articles" from rfl,
    show tableize "tags" = "tags" from rfl, if_pos h]
  rfl

/-- Witness for C2: the three strategies on the concrete author/article/tag
schema. -/
theorem relationMappings_strategy_witness :
    relationMappingFor demoSchema "article" "author"
        { kind := .hasOne, model := some "author", inverse := some "articles" }
      = .ok { relation := .belongsToOne, modelClassType := "author",
              joinFrom := "articles.author_id", through := none,
              joinTo := "authors.id" } ∧
    relationMappingFor demoSchema "author" "articles"
        { kind := .hasMany, model := some "article", inverse := some "author" }
      = .ok { relation := .hasManyRelation, modelClassType := "article",
              joinFrom := "authors.id", through := none,
              joinTo := "articles.author_id" } ∧
    relationMappingFor demoSchema "article" "tags"
        { kind := .hasMany, model := some "tag", inverse := some "articles" }
      = .ok { relation := .manyToMany, modelClassType := "tag",
              joinFrom := "articles.id",
              through := some ("articles_tags.tags_id", "articles_tags.articles_id"),
              joinTo := "tags.id" } := by
  refine ⟨?_, ?_, ?_⟩
  · exact (relationMappings_strategy demoSchema "article" "author" "author" "articles"
      { kind := .hasOne, model := some "author", inverse := some "articles" }
      rfl rfl).1 rfl
  · exact ((relationMappings_strategy demoSchema "author" "articles" "article" "author"
      { kind := .hasMany, model := some "article", inverse := some "author" }
      rfl rfl).2
      { kind := .hasOne, model := some "author", inverse := some "articles" }
      (by decide)).1 rfl rfl
  · have h := ((relationMappings_strategy demoSchema "article" "tags" "tag" "articles"
      { kind := .hasMany, model := some "tag", inverse := some "articles" }
      rfl rfl).2
      { kind := .hasMany, model := some "article", inverse := some "tags" }
      (by decide)).2 rfl rfl
    rw [h, tableizeJoinTable_tags_articles]
    rfl

theorem parseSortList_error (qb : QB) (ss : List SortSpecifier) (k : String)
    (h : firstUnsupportedSortKind ss = some k) :
    parseSortList qb ss
      = .error { message := "Sort specifier " ++ k ++ " not recognized for SQLSource." } := by
  induction ss generalizing qb with
  | nil => simp [firstUnsupportedSortKind] at h
  | cons s rest ih =>
    rcases s with ⟨attr, order⟩ | ⟨k'⟩
    · simp only [firstUnsupportedSortKind] at h
      by_cases ho : order = "descending" <;> simp [parseSortList, ho, ih _ h]
    · simp only [firstUnsupportedSortKind, Option.some.injEq] at h
      subst h
      rfl

theorem parseSortList_ok (qb : QB) (ss : List SortSpecifier)
    (h : firstUnsupportedSortKind ss = none) :
    ∃ qb', parseSortList qb ss = .ok qb' := by
  induction ss generalizing qb with
  | nil => exact ⟨qb, rfl⟩
  | cons s rest ih =>
    rcases s with ⟨attr, order⟩ | ⟨k'⟩
    · simp only [firstUnsupportedSortKind] at h
      by_cases ho : order = "descending" <;>
        simp only [parseSortList, ho, ite_true, ite_false, if_pos, if_neg] <;>
        exact ih _ h
    · simp [firstUnsupportedSortKind] at h

theorem filter_skips_unsupported (qb : QB) (filters : List FilterSpecifier) :
    (filters.filter FilterSpecifier.isAttribute).foldl applyFilter qb
      = filters.foldl applyFilter qb := by
  induction filters generalizing qb with
  | nil => rfl
  | cons f rest ih =>
    rcases f with ⟨op, a, v⟩ | ⟨k⟩
    · simp only [List.filter, FilterSpecifier.isAttribute, List.foldl]
      exact ih _
    · simp only [List.filter, FilterSpecifier.isAttribute, List.foldl, applyFilter]
      exact ih _

/-- C3 (corrected): an unimplemented sort specifier kind fails the whole query
immediately with a parse-style error naming the offending kind; with all sorts
supported, an unimplemented page kind does the same; but an unimplemented
FILTER specifier kind is silently skipped — the pipeline behaves exactly as if
those filters were absent, never raising an error for them. -/
theorem query_pipeline_unsupported_specifiers :
    (∀ (qb : QB) (e : FindRecordsExpression) (ss : List SortSpecifier) (k : String),
      e.sort = some ss → firstUnsupportedSortKind ss = some k →
      parseQueryExpression qb e
        = .error { message := "Sort specifier " ++ k ++ " not recognized for SQLSource." }) ∧
    (∀ (qb : QB) (e : FindRecordsExpression) (k : String),
      (∀ ss, e.sort = some ss → firstUnsupportedSortKind ss = none) →
      e.page = some (.unsupported k) →
      parseQueryExpression qb e
        = .error { message := "Page specifier " ++ k ++ " not recognized for SQLSource." }) ∧
    (∀ (qb : QB) (e : FindRecordsExpression),
      parseQueryExpressionFilter qb
          { e with filter := e.filter.map (List.filter FilterSpecifier.isAttribute) }
        = parseQueryExpressionFilter qb e) := by
  refine ⟨?_, ?_, ?_⟩
  · intro qb e ss k hs hk
    unfold parseQueryExpression parseQueryExpressionSort
    simp only [hs]
    rw [parseSortList_error qb ss k hk]
  · intro qb e k hsort hpage
    unfold parseQueryExpression
    cases hs : e.sort with
    | none => simp [parseQueryExpressionSort, hs, parseQueryExpressionPage, hpage]
    | some ss =>
      obtain ⟨qb', hq⟩ := parseSortList_ok qb ss (hsort ss hs)
      simp [parseQueryExpressionSort, hs, hq, parseQueryExpressionPage, hpage]
  · intro qb e
    cases hf : e.filter with
    | none => simp [parseQueryExpressionFilter, hf]
    | some filters =>
      simp [parseQueryExpressionFilter, hf, filter_skips_unsupported]

/-- C3 counterexample: a query whose filter list consists of a specifier of an
unimplemented kind does not fail — the pipeline ignores it and succeeds with
an untouched builder, contrary to the claim that an unsupported filter
specifier kind fails with a parse-style error. -/
theorem unsupported_filter_no_error :
    parseQueryExpression []
      { sort := none
        filter := some [FilterSpecifier.unsupported "relatedRecord"]
        page := none } = .ok [] := rfl

/-- Witness for C3 at concrete specifiers. -/
theorem query_pipeline_unsupported_specifiers_witness :
    parseQueryExpression []
      { sort := some [SortSpecifier.unsupported "relatedRecord"], filter := none, page := none }
      = .error { message := "Sort specifier relatedRecord not recognized for SQLSource." } ∧
    parseQueryExpression []
      { sort := none, filter := none, page := some (PageSpecifier.unsupported "cursor") }
      = .error { message := "Page specifier cursor not recognized for SQLSource." } ∧
    parseQueryExpressionFilter []
      { sort := none
        filter := (some [FilterSpecifier.unsupported "relatedRecord"]).map
          (List.filter FilterSpecifier.isAttribute)
        page := none }
      = parseQueryExpressionFilter []
        { sort := none
          filter := some [FilterSpecifier.unsupported "relatedRecord"]
          page := none } := by
  refine ⟨?_, ?_, ?_⟩
  · exact query_pipeline_unsupported_specifiers.1 []
      { sort := some [SortSpecifier.unsupported "relatedRecord"], filter := none, page := none }
      [SortSpecifier.unsupported "relatedRecord"] "relatedRecord" rfl rfl
  · exact query_pipeline_unsupported_specifiers.2.1 []
      { sort := none, filter := none, page := some (PageSpecifier.unsupported "cursor") }
      "cursor" (by intro ss h; nomatch h) rfl
  · exact query_pipeline_unsupported_specifiers.2.2 []
      { sort := none, filter := some [FilterSpecifier.unsupported "relatedRecord"], page := none }

theorem mem_firstOccurAux (t : String) (l : List String) :
    ∀ seen : List String, t ∈ firstOccurAux seen l ↔ (t ∈ l ∧ t ∉ seen) := by
  induction l with
  | nil => intro seen; simp [firstOccurAux]
  | cons a l ih =>
    intro seen
    simp only [firstOccurAux]
    by_cases ha : a ∈ seen
    · rw [if_pos ha, ih seen]
      simp only [List.mem_cons]
      constructor
      · rintro ⟨h1, h2⟩
        exact ⟨Or.inr h1, h2⟩
      · rintro ⟨h1 | h1, h2⟩
        · subst h1; exact absurd ha h2
        · exact ⟨h1, h2⟩
    · rw [if_neg ha]
      simp only [List.mem_cons, ih (a :: seen)]
      constructor
      · rintro (rfl | ⟨h1, h2⟩)
        · exact ⟨Or.inl rfl, ha⟩
        · refine ⟨Or.inr h1, fun hs => h2 (Or.inr hs)⟩
      · rintro ⟨h1 | h1, h2⟩
        · exact Or.inl h1
        · by_cases hta : t = a
          · exact Or.inl hta
          · exact Or.inr ⟨h1, fun hs => hs.elim hta h2⟩

theorem mem_typesOf (records : List Identity) (t : String) :
    t ∈ typesOf records ↔ ∃ r ∈ records, r.type = t := by
  simp [typesOf, mem_firstOccurAux, List.mem_map]

theorem mem_idsOfType (records : List Identity) (t x : String) :
    x ∈ idsOfType records t ↔ ∃ r ∈ records, r.type = t ∧ r.id = x := by
  simp only [idsOfType, List.mem_map, List.mem_filter, beq_iff_eq]
  constructor
  · rintro ⟨r, ⟨hr, ht⟩, hx⟩
    exact ⟨r, hr, ht, hx⟩
  · rintro ⟨r, hr, ht, hx⟩
    exact ⟨r, ⟨hr, ht⟩, hx⟩

theorem mem_recordsByIdEntries (db records : List Identity) (e : String × Identity) :
    e ∈ recordsByIdEntries db records ↔
      ∃ r, r ∈ db ∧ r.type ∈ typesOf records ∧
        r.id ∈ idsOfType records r.type ∧ e = (r.id, r) := by
  simp only [recordsByIdEntries, List.mem_flatMap, List.mem_map, findByIds,
    List.mem_filter, Bool.and_eq_true, beq_iff_eq, decide_eq_true_eq]
  constructor
  · rintro ⟨t, ht, r, ⟨hrdb, htype, hid⟩, rfl⟩
    subst htype
    exact ⟨r, hrdb, ht, hid, rfl⟩
  · rintro ⟨r, hrdb, ht, hid, rfl⟩
    exact ⟨r.type, ht, r, ⟨hrdb, rfl, hid⟩, rfl⟩

theorem entries_key_val (db records : List Identity)
    (hid : ∀ i ∈ records, ∀ j ∈ records, i.id = j.id → i.type = j.type)
    (i : Identity) (hi : i ∈ records) :
    ∀ e ∈ recordsByIdEntries db records, e.1 = i.id → e.2 = i ∧ e.2 ∈ db := by
  intro e he hk
  obtain ⟨r, hrdb, ht, hidm, rfl⟩ := (mem_recordsByIdEntries db records e).mp he
  obtain ⟨j, hj, hjt, hjid⟩ := (mem_idsOfType records r.type r.id).mp hidm
  have hji : j.type = i.type := hid j hj i hi (by rw [hjid]; exact hk)
  have hrt : r.type = i.type := by rw [← hjt, hji]
  have hri : r = i := by
    cases r
    cases i
    simp only at hrt hk
    simp [hrt, hk]
  exact ⟨hri, hri ▸ hrdb⟩

theorem entry_present (db records : List Identity) (i : Identity)
    (hi : i ∈ records) (hdb : i ∈ db) :
    (i.id, i) ∈ recordsByIdEntries db records := by
  refine (mem_recordsByIdEntries db records (i.id, i)).mpr ?_
  exact ⟨i, hdb, (mem_typesOf records i.type).mpr ⟨i, hi, rfl⟩,
    (mem_idsOfType records i.type i.id).mpr ⟨i, hi, rfl, rfl⟩, rfl⟩

theorem lookupLast_mem {α : Type} (m : List (String × α)) (k : String) (v : α)
    (h : lookupLast m k = some v) : (k, v) ∈ m := by
  induction m with
  | nil => cases h
  | cons p m ih =>
    obtain ⟨k', v'⟩ := p
    simp only [lookupLast] at h
    cases hm : lookupLast m k with
    | some w =>
      rw [hm] at h
      cases h
      exact List.mem_cons_of_mem _ (ih hm)
    | none =>
      rw [hm] at h
      by_cases hk : k' = k
      · rw [if_pos hk] at h
        cases h
        subst hk
        exact List.mem_cons_self _ _
      · rw [if_neg hk] at h
        cases h

theorem lookupLast_isSome_of_mem {α : Type} (m : List (String × α)) (k : String)
    (v : α) (h : (k, v) ∈ m) : ∃ w, lookupLast m k = some w := by
  induction m with
  | nil => cases h
  | cons p m ih =>
    simp only [lookupLast]
    cases hlast : lookupLast m k with
    | some w => exact ⟨w, rfl⟩
    | none =>
      rcases List.mem_cons.mp h with heq | hm
      · rw [← heq]
        simp
      · obtain ⟨w, hw⟩ := ih hm
        rw [hw] at hlast
        cases hlast

theorem lookup_entries (db records : List Identity)
    (hid : ∀ i ∈ records, ∀ j ∈ records, i.id = j.id → i.type = j.type)
    (i : Identity) (hi : i ∈ records) :
    lookupLast (recordsByIdEntries db records) i.id
      = if i ∈ db then some i else none := by
  by_cases hdb : i ∈ db
  · rw [if_pos hdb]
    obtain ⟨w, hw⟩ :=
      lookupLast_isSome_of_mem _ i.id i (entry_present db records i hi hdb)
    have hmem := lookupLast_mem _ _ _ hw
    have hkey := entries_key_val db records hid i hi (i.id, w) hmem rfl
    rw [hw]
    exact congrArg some hkey.1
  · rw [if_neg hdb]
    cases hl : lookupLast (recordsByIdEntries db records) i.id with
    | none => rfl
    | some w =>
      have hmem := lookupLast_mem _ _ _ hl
      have hkey := entries_key_val db records hid i hi (i.id, w) hmem rfl
      exact absurd (hkey.1 ▸ hkey.2) hdb

theorem filterMap_eq_filter_of {α : Type} (l : List α) (f : α → Option α)
    (p : α → Prop) [DecidablePred p]
    (h : ∀ a ∈ l, f a = if p a then some a else none) :
    l.filterMap f = l.filter (fun a => decide (p a)) := by
  induction l with
  | nil => rfl
  | cons a l ih =>
    have ha := h a (List.mem_cons_self a l)
    have hrest := ih (fun b hb => h b (List.mem_cons_of_mem a hb))
    simp only [List.filterMap_cons, List.filter_cons, ha]
    by_cases hp : p a
    · rw [if_pos hp]
      simp [hp, hrest]
    · rw [if_neg hp]
      simp [hp, hrest]

/-- C4 (corrected): provided no two input identities share an id across
different types, the identity-list fetch returns exactly the input identities
that have a matching row, in input order, and every identity without a
matching row is silently dropped — the function is total, so no error can be
raised (in contrast to the strict single-record fetch, which installs a
not-found error).  The precondition is forced by the lookup map being keyed by
id alone. -/
theorem findRecords_by_identities_spec (db records : List Identity)
    (hid : ∀ i ∈ records, ∀ j ∈ records, i.id = j.id → i.type = j.type) :
    findRecordsByIdentities db records
      = records.filter (fun i => decide (i ∈ db)) := by
  unfold findRecordsByIdentities
  exact filterMap_eq_filter_of records _ (fun i => i ∈ db)
    (fun i hi => lookup_entries db records hid i hi)

/-- C4 counterexample: with two existing rows `author:1` and `article:1` and
the input list `[{author,1}, {article,1}]` — both identities have matching
rows — the fetch returns the `article:1` record twice (the id-keyed map is
overwritten by the later type), not the two addressed records in input order
as the claim states. -/
theorem findRecords_identity_collision :
    findRecordsByIdentities
        [⟨"author", "1"⟩, ⟨"article", "1"⟩] [⟨"author", "1"⟩, ⟨"article", "1"⟩]
      = [⟨"article", "1"⟩, ⟨"article", "1"⟩] ∧
    findRecordsByIdentities
        [⟨"author", "1"⟩, ⟨"article", "1"⟩] [⟨"author", "1"⟩, ⟨"article", "1"⟩]
      ≠ [⟨"author", "1"⟩, ⟨"article", "1"⟩] := by
  exact ⟨by decide, by decide⟩

theorem lookupLast_eq_none {α : Type} (m : List (String × α)) (k : String)
    (h : ∀ e ∈ m, e.1 ≠ k) : lookupLast m k = none := by
  induction m with
  | nil => rfl
  | cons e m ih =>
    obtain ⟨k', v⟩ := e
    have h1 : k' ≠ k := h (k', v) (List.mem_cons_self _ _)
    have h2 := ih (fun e he => h e (List.mem_cons_of_mem _ he))
    simp [lookupLast, h2, h1]

theorem lookupLast_cons_ne {α : Type} (k' k : String) (v : α)
    (m : List (String × α)) (h : k' ≠ k) :
    lookupLast ((k', v) :: m) k = lookupLast m k := by
  simp only [lookupLast]
  cases lookupLast m k with
  | some w => rfl
  | none => simp [h]

theorem lookupLast_cons_self {α : Type} (k : String) (v : α)
    (m : List (String × α)) (h : lookupLast m k = none) :
    lookupLast ((k, v) :: m) k = some v := by
  simp [lookupLast, h]

theorem keys_collectAttrs (result : List (String × Value)) :
    ∀ (attrs : List (String × String)) (e : String × Value),
      e ∈ collectAttrs result attrs → e.1 ∈ attrs.map Prod.fst := by
  intro attrs
  induction attrs with
  | nil => intro e he; cases he
  | cons a rest ih =>
    obtain ⟨q, tyq⟩ := a
    intro e he
    simp only [collectAttrs] at he
    cases hres : lookupLast result q with
    | none =>
      rw [hres] at he
      exact List.mem_cons_of_mem _ (ih e he)
    | some v =>
      rw [hres] at he
      dsimp only at he
      by_cases hnn : v.notNull
      · rw [if_pos hnn] at he
        rcases List.mem_cons.mp he with rfl | he'
        · exact List.mem_cons_self _ _
        · exact List.mem_cons_of_mem _ (ih e he')
      · rw [if_neg hnn] at he
        exact List.mem_cons_of_mem _ (ih e he)

theorem keys_collectRels (result : List (String × Value)) :
    ∀ (rels : List (String × RelationshipDef)) (e : String × (String × Value)),
      e ∈ collectRels result rels → e.1 ∈ rels.map Prod.fst := by
  intro rels
  induction rels with
  | nil => intro e he; cases he
  | cons a rest ih =>
    obtain ⟨q, rdq⟩ := a
    intro e he
    simp only [collectRels] at he
    cases hk : rdq.kind with
    | hasMany =>
      rw [hk] at he
      exact List.mem_cons_of_mem _ (ih e he)
    | hasOne =>
      rw [hk] at he
      cases hres : lookupLast result (q ++ "Id") with
      | none =>
        rw [hres] at he
        exact List.mem_cons_of_mem _ (ih e he)
      | some v =>
        rw [hres] at he
        dsimp only at he
        by_cases ht : v.truthy
        · rw [if_pos ht] at he
          rcases List.mem_cons.mp he with rfl | he'
          · exact List.mem_cons_self _ _
          · exact List.mem_cons_of_mem _ (ih e he')
        · rw [if_neg ht] at he
          exact List.mem_cons_of_mem _ (ih e he)

theorem collectAttrs_lookup (result : List (String × Value)) :
    ∀ (attrs : List (String × String)), (attrs.map Prod.fst).Nodup →
      ∀ p ty, (p, ty) ∈ attrs →
      lookupLast (collectAttrs result attrs) p
        = match lookupLast result p with
          | some v => if v.notNull then some (castAttributeValue v (some ty)) else none
          | none => none := by
  intro attrs
  induction attrs with
  | nil => intro _ p ty h; cases h
  | cons a rest ih =>
    obtain ⟨q, tyq⟩ := a
    intro hnd p ty hmem
    rw [List.map_cons] at hnd
    have hnd2 := List.nodup_cons.mp hnd
    have hqn : q ∉ rest.map Prod.fst := hnd2.1
    have htail0 : lookupLast (collectAttrs result rest) q = none :=
      lookupLast_eq_none _ _ (fun e he hk => hqn (hk ▸ keys_collectAttrs result rest e he))
    rcases List.mem_cons.mp hmem with heq | hmem'
    · rw [Prod.mk.injEq] at heq
      obtain ⟨rfl, rfl⟩ := heq
      simp only [collectAttrs]
      cases hres : lookupLast result p with
      | none => exact htail0
      | some v =>
        by_cases hnn : v.notNull
        · simp only [hnn, if_true]
          exact lookupLast_cons_self _ _ _ htail0
        · simp only [hnn, Bool.false_eq_true, if_false]
          exact htail0
    · have hpq : p ≠ q := by
        intro h
        subst h
        exact hqn (List.mem_map.mpr ⟨(p, ty), hmem', rfl⟩)
      simp only [collectAttrs]
      cases hres : lookupLast result q with
      | none => exact ih hnd2.2 p ty hmem'
      | some v =>
        by_cases hnn : v.notNull
        · simp only [hnn, if_true]
          rw [lookupLast_cons_ne q p _ _ (Ne.symm hpq)]
          exact ih hnd2.2 p ty hmem'
        · simp only [hnn, Bool.false_eq_true, if_false]
          exact ih hnd2.2 p ty hmem'

theorem collectRels_lookup (result : List (String × Value)) :
    ∀ (rels : List (String × RelationshipDef)), (rels.map Prod.fst).Nodup →
      ∀ p rd, (p, rd) ∈ rels →
      lookupLast (collectRels result rels) p
        = match rd.kind with
          | .hasMany => none
          | .hasOne =>
            match lookupLast result (p ++ "Id") with
            | some v => if v.truthy then some (rd.model.getD "undefined", v) else none
            | none => none := by
  intro rels
  induction rels with
  | nil => intro _ p rd h; cases h
  | cons a rest ih =>
    obtain ⟨q, rdq⟩ := a
    intro hnd p rd hmem
    rw [List.map_cons] at hnd
    have hnd2 := List.nodup_cons.mp hnd
    have hqn : q ∉ rest.map Prod.fst := hnd2.1
    have htail0 : lookupLast (collectRels result rest) q = none :=
      lookupLast_eq_none _ _ (fun e he hk => hqn (hk ▸ keys_collectRels result rest e he))
    rcases List.mem_cons.mp hmem with heq | hmem'
    · rw [Prod.mk.injEq] at heq
      obtain ⟨rfl, rfl⟩ := heq
      simp only [collectRels]
      cases hk : rd.kind with
      | hasMany => exact htail0
      | hasOne =>
        cases hres : lookupLast result (p ++ "Id") with
        | none => exact htail0
        | some v =>
          by_cases ht : v.truthy
          · simp only [ht, if_true]
            exact lookupLast_cons_self _ _ _ htail0
          · simp only [ht, Bool.false_eq_true, if_false]
            exact htail0
    · have hpq : p ≠ q := by
        intro h
        subst h
        exact hqn (List.mem_map.mpr ⟨(p, rd), hmem', rfl⟩)
      simp only [collectRels]
      cases hk : rdq.kind with
      | hasMany => exact ih hnd2.2 p rd hmem'
      | hasOne =>
        cases hres : lookupLast result (q ++ "Id") with
        | none => exact ih hnd2.2 p rd hmem'
        | some v =>
          by_cases ht : v.truthy
          · simp only [ht, if_true]
            rw [lookupLast_cons_ne q p _ _ (Ne.symm hpq)]
            exact ih hnd2.2 p rd hmem'
          · simp only [ht, Bool.false_eq_true, if_false]
            exact ih hnd2.2 p rd hmem'

theorem toOrbitRecord_attr_eq (schema : Schema) (m : ModelRow) (p : String) :
    (toOrbitRecord schema m).attr p
      = lookupLast (collectAttrs m.result (attributesOf schema m.orbitType)) p := by
  unfold toOrbitRecord OrbitRec.attr
  by_cases h : collectAttrs m.result (attributesOf schema m.orbitType) = []
  · simp [h, lookupLast]
  · simp [h]

theorem toOrbitRecord_rel_eq (schema : Schema) (m : ModelRow) (p : String) :
    (toOrbitRecord schema m).rel p
      = lookupLast (collectRels m.result (relationshipsOf schema m.orbitType)) p := by
  unfold toOrbitRecord OrbitRec.rel
  by_cases h : collectRels m.result (relationshipsOf schema m.orbitType) = []
  · simp [h, lookupLast]
  · simp [h]

/-- C5 (corrected): the row-to-record conversion keeps the row's identity;
copies exactly the declared attributes present and non-null on the row (an
omitted or null column yields no attribute key, and an undeclared name yields
none), coercing through `castAttributeValue` — stored 1/0 to true/false for
boolean attributes, stored string/number to a date value for datetime
attributes; and embeds a single-valued relationship as `{type, id}` exactly
when its foreign-key property holds a TRUTHY value (non-null and non-empty),
while a collection-valued relationship is never embedded. -/
theorem toOrbitRecord_spec (schema : Schema) (m : ModelRow)
    (hattr : ((attributesOf schema m.orbitType).map Prod.fst).Nodup)
    (hrel : ((relationshipsOf schema m.orbitType).map Prod.fst).Nodup) :
    ((toOrbitRecord schema m).type = m.orbitType ∧ (toOrbitRecord schema m).id = m.id) ∧
    (∀ p ty, (p, ty) ∈ attributesOf schema m.orbitType →
      (toOrbitRecord schema m).attr p
        = match lookupLast m.result p with
          | some v => if v.notNull then some (castAttributeValue v (some ty)) else none
          | none => none) ∧
    (∀ p, p ∉ (attributesOf schema m.orbitType).map Prod.fst →
      (toOrbitRecord schema m).attr p = none) ∧
    (∀ p rd, (p, rd) ∈ relationshipsOf schema m.orbitType → rd.kind = .hasOne →
      (toOrbitRecord schema m).rel p
        = match lookupLast m.result (p ++ "Id") with
          | some v => if v.truthy then some (rd.model.getD "undefined", v) else none
          | none => none) ∧
    (∀ p rd, (p, rd) ∈ relationshipsOf schema m.orbitType → rd.kind = .hasMany →
      (toOrbitRecord schema m).rel p = none) ∧
    (castAttributeValue (Value.vInt 1) (some "boolean") = Value.vBool true ∧
      castAttributeValue (Value.vInt 0) (some "boolean") = Value.vBool false ∧
      (∀ s, castAttributeValue (Value.vStr s) (some "datetime")
        = Value.vDate (.fromString s)) ∧
      (∀ n, castAttributeValue (Value.vInt n) (some "datetime")
        = Value.vDate (.fromNumber n))) := by
  refine ⟨⟨rfl, rfl⟩, ?_, ?_, ?_, ?_, rfl, by decide, fun s => rfl, fun n => rfl⟩
  · intro p ty hmem
    rw [toOrbitRecord_attr_eq]
    exact collectAttrs_lookup m.result _ hattr p ty hmem
  · intro p hp
    rw [toOrbitRecord_attr_eq]
    exact lookupLast_eq_none _ _
      (fun e he hk => hp (hk ▸ keys_collectAttrs m.result _ e he))
  · intro p rd hmem hk
    rw [toOrbitRecord_rel_eq]
    have h := collectRels_lookup m.result _ hrel p rd hmem
    rw [h, hk]
  · intro p rd hmem hk
    rw [toOrbitRecord_rel_eq]
    have h := collectRels_lookup m.result _ hrel p rd hmem
    rw [h, hk]

/-- C5 counterexample: a stored row whose `authorId` foreign-key column holds
the empty string — a NON-NULL value — produces a record with no embedded
relationship at all, refuting the claim's "embedded if and only if the
foreign-key column is non-null". -/
theorem toOrbitRecord_empty_fk_not_embedded :
    lookupLast articleRowEmptyFk.result "authorId" = some (Value.vStr "") ∧
    (Value.vStr "").notNull = true ∧
    (toOrbitRecord demoSchema articleRowEmptyFk).relationships = none := by
  exact ⟨by decide, rfl, by decide⟩

/-- Witness for C5 on a populated article row of the test schema. -/
theorem toOrbitRecord_spec_witness :
    (toOrbitRecord demoSchema articleRowFull).attr "title"
      = some (Value.vStr "Article 1") ∧
    (toOrbitRecord demoSchema articleRowFull).rel "author"
      = some ("author", Value.vStr "1") ∧
    (toOrbitRecord demoSchema articleRowFull).rel "tags" = none := by
  have h := toOrbitRecord_spec demoSchema articleRowFull (by decide) (by decide)
  refine ⟨?_, ?_, ?_⟩
  · rw [h.2.1 "title" "string" (by decide)]
    decide
  · rw [h.2.2.2.1 "author"
      { kind := .hasOne, model := some "author", inverse := some "articles" }
      (by decide) rfl]
    decide
  · exact h.2.2.2.2.1 "tags"
      { kind := .hasMany, model := some "tag", inverse := some "articles" }
      (by decide) rfl

/-- Witness for C4: one existing and one non-existent identity — only the
existing record is returned, with no error. -/
theorem findRecords_by_identities_spec_witness :
    findRecordsByIdentities
        [⟨"author", "1"⟩, ⟨"article", "2"⟩] [⟨"author", "1"⟩, ⟨"article", "9"⟩]
      = [⟨"author", "1"⟩] := by
  rw [findRecords_by_identities_spec
    [⟨"author", "1"⟩, ⟨"article", "2"⟩] [⟨"author", "1"⟩, ⟨"article", "9"⟩]
    (by decide)]
  decide

theorem lookupLast_map_keyed {α β : Type} (l : List (String × α))
    (g : String → α → β) (k : String) :
    lookupLast (l.map (fun e => (e.1, g e.1 e.2))) k
      = (lookupLast l k).map (g k) := by
  induction l with
  | nil => rfl
  | cons e l ih =>
    obtain ⟨k', v⟩ := e
    simp only [List.map_cons, lookupLast, ih]
    cases lookupLast l k with
    | some w => rfl
    | none =>
      by_cases hk : k' = k
      · subst hk
        simp
      · simp [hk]

theorem mem_parseAttrsGo (m : List (String × Value)) :
    ∀ (declared : List (String × String)) (e : String × PropValue),
      e ∈ parseAttrsGo m declared →
      e.1 ∈ declared.map Prod.fst ∧
        ∃ v, lookupLast m e.1 = some v ∧ e.2 = PropValue.val v := by
  intro declared
  induction declared with
  | nil => intro e he; cases he
  | cons a rest ih =>
    obtain ⟨q, tyq⟩ := a
    intro e he
    simp only [parseAttrsGo] at he
    cases hres : lookupLast m q with
    | none =>
      rw [hres] at he
      obtain ⟨h1, h2⟩ := ih e he
      exact ⟨List.mem_cons_of_mem _ h1, h2⟩
    | some v =>
      rw [hres] at he
      dsimp only at he
      rcases List.mem_cons.mp he with rfl | he'
      · exact ⟨List.mem_cons_self _ _, v, hres, rfl⟩
      · obtain ⟨h1, h2⟩ := ih e he'
        exact ⟨List.mem_cons_of_mem _ h1, h2⟩

theorem relPropOf_ne_val (rd : RelationshipDef) (data : RelData) :
    ∀ v, relPropOf rd data ≠ PropValue.val v := by
  intro v h
  cases hk : rd.kind <;> cases data <;> simp [relPropOf, hk] at h

theorem mem_parseRelsGo (m : List (String × RelData)) :
    ∀ (declared : List (String × RelationshipDef)) (e : String × PropValue),
      e ∈ parseRelsGo m declared →
      e.1 ∈ declared.map Prod.fst ∧
        (∃ d, lookupLast m e.1 = some d) ∧ ∀ v, e.2 ≠ PropValue.val v := by
  intro declared
  induction declared with
  | nil => intro e he; cases he
  | cons a rest ih =>
    obtain ⟨q, rdq⟩ := a
    intro e he
    simp only [parseRelsGo] at he
    cases hres : lookupLast m q with
    | none =>
      rw [hres] at he
      obtain ⟨h1, h2⟩ := ih e he
      exact ⟨List.mem_cons_of_mem _ h1, h2⟩
    | some data =>
      rw [hres] at he
      dsimp only at he
      rcases List.mem_cons.mp he with rfl | he'
      · exact ⟨List.mem_cons_self _ _, ⟨data, hres⟩, relPropOf_ne_val rdq data⟩
      · obtain ⟨h1, h2⟩ := ih e he'
        exact ⟨List.mem_cons_of_mem _ h1, h2⟩

theorem parseAttrsGo_lookup (m : List (String × Value)) :
    ∀ (declared : List (String × String)), (declared.map Prod.fst).Nodup →
      ∀ p ty, (p, ty) ∈ declared →
      lookupLast (parseAttrsGo m declared) p
        = (lookupLast m p).map PropValue.val := by
  intro declared
  induction declared with
  | nil => intro _ p ty h; cases h
  | cons a rest ih =>
    obtain ⟨q, tyq⟩ := a
    intro hnd p ty hmem
    rw [List.map_cons] at hnd
    have hnd2 := List.nodup_cons.mp hnd
    have htail0 : lookupLast (parseAttrsGo m rest) q = none :=
      lookupLast_eq_none _ _
        (fun e he hk => hnd2.1 (hk ▸ (mem_parseAttrsGo m rest e he).1))
    rcases List.mem_cons.mp hmem with heq | hmem'
    · rw [Prod.mk.injEq] at heq
      obtain ⟨rfl, rfl⟩ := heq
      simp only [parseAttrsGo]
      cases hres : lookupLast m p with
      | none => exact htail0
      | some v => exact lookupLast_cons_self _ _ _ htail0
    · have hpq : p ≠ q := by
        intro h
        subst h
        exact hnd2.1 (List.mem_map.mpr ⟨(p, ty), hmem', rfl⟩)
      simp only [parseAttrsGo]
      cases hres : lookupLast m q with
      | none => exact ih hnd2.2 p ty hmem'
      | some v =>
        rw [lookupLast_cons_ne q p _ _ (Ne.symm hpq)]
        exact ih hnd2.2 p ty hmem'

theorem parseOrbitRecord_attr_lookup (schema : Schema) (record : ORecord)
    (hnd : ((attributesOf schema record.type).map Prod.fst).Nodup)
    (p ty : String) (hmem : (p, ty) ∈ attributesOf schema record.type)
    (hpid : p ≠ "id")
    (hprel : p ∉ (relationshipsOf schema record.type).map Prod.fst) :
    lookupLast (parseOrbitRecord schema record) p
      = (match record.attributes with
         | some m => lookupLast m p
         | none => none).map PropValue.val := by
  unfold parseOrbitRecord
  have hC : lookupLast
      (parseRels record.relationships (relationshipsOf schema record.type)) p
        = none := by
    unfold parseRels
    cases record.relationships with
    | none => rfl
    | some m =>
      exact lookupLast_eq_none _ _
        (fun e he hk => hprel (hk ▸ (mem_parseRelsGo m _ e he).1))
  rw [lookupLast_append_of_none _ hC]
  have hA : lookupLast
      (if record.id ≠ "" then [("id", PropValue.idv record.id)] else []) p
        = none := by
    by_cases h : record.id ≠ ""
    · rw [if_pos h, lookupLast_singleton]
      simp [Ne.symm hpid]
    · rw [if_neg h]
      rfl
  cases hatt : record.attributes with
  | none =>
    simp only [parseAttrs, List.append_nil]
    rw [hA]
    rfl
  | some m =>
    simp only [parseAttrs]
    cases hm : lookupLast m p with
    | some v =>
      have hBl : lookupLast (parseAttrsGo m (attributesOf schema record.type)) p
          = some (PropValue.val v) := by
        rw [parseAttrsGo_lookup m _ hnd p ty hmem, hm]
        rfl
      rw [lookupLast_append_of_some _ hBl]
      rfl
    | none =>
      have hBl : lookupLast (parseAttrsGo m (attributesOf schema record.type)) p
          = none := by
        rw [parseAttrsGo_lookup m _ hnd p ty hmem, hm]
        rfl
      rw [lookupLast_append_of_none _ hBl, hA]
      rfl

theorem parseOrbitRecord_rel_omitted (schema : Schema) (record : ORecord)
    (p : String) (hpid : p ≠ "id")
    (hpattr : p ∉ (attributesOf schema record.type).map Prod.fst)
    (homit : (match record.relationships with
              | some m => lookupLast m p
              | none => none) = none) :
    lookupLast (parseOrbitRecord schema record) p = none := by
  unfold parseOrbitRecord
  have hC : lookupLast
      (parseRels record.relationships (relationshipsOf schema record.type)) p
        = none := by
    unfold parseRels
    cases hre : record.relationships with
    | none => rfl
    | some m =>
      rw [hre] at homit
      dsimp only at homit
      refine lookupLast_eq_none _ _ (fun e he hk => ?_)
      obtain ⟨_, ⟨d, hd⟩, _⟩ := mem_parseRelsGo m _ e he
      rw [hk, homit] at hd
      cases hd
  rw [lookupLast_append_of_none _ hC]
  have hB : lookupLast
      (parseAttrs record.attributes (attributesOf schema record.type)) p
        = none := by
    unfold parseAttrs
    cases record.attributes with
    | none => rfl
    | some m =>
      exact lookupLast_eq_none _ _
        (fun e he hk => hpattr (hk ▸ (mem_parseAttrsGo m _ e he).1))
  rw [lookupLast_append_of_none _ hB]
  by_cases h : record.id ≠ ""
  · rw [if_pos h, lookupLast_singleton]
    simp [Ne.symm hpid]
  · rw [if_neg h]
    rfl

theorem parseOrbitRecord_lookup_not_val (schema : Schema) (record : ORecord)
    (k : String) (hk : k ≠ "id")
    (hattr : k ∉ (attributesOf schema record.type).map Prod.fst) :
    ∀ v, lookupLast (parseOrbitRecord schema record) k
      ≠ some (PropValue.val v) := by
  intro v hl
  have hm := lookupLast_mem _ _ _ hl
  unfold parseOrbitRecord at hm
  rcases List.mem_append.mp hm with hm | hm
  · rcases List.mem_append.mp hm with hm | hm
    · by_cases h : record.id ≠ ""
      · rw [if_pos h] at hm
        rcases List.mem_cons.mp hm with heq | h0
        · rw [Prod.mk.injEq] at heq
          exact hk heq.1
        · cases h0
      · rw [if_neg h] at hm
        cases hm
    · unfold parseAttrs at hm
      cases hr : record.attributes with
      | none =>
        rw [hr] at hm
        cases hm
      | some m =>
        rw [hr] at hm
        exact hattr ((mem_parseAttrsGo m _ _ hm).1)
  · unfold parseRels at hm
    cases hr : record.relationships with
    | none =>
      rw [hr] at hm
      cases hm
    | some m =>
      rw [hr] at hm
      exact (mem_parseRelsGo m _ _ hm).2.2 v rfl

/-- C6: update is a merge — for an existing stored row, an attribute present
in the payload (its value, null included) overwrites exactly that column; a
declared attribute omitted from the payload keeps its prior stored value; and
a relationship key omitted from the payload leaves both its foreign key and
its link set untouched. -/
theorem updateRecord_merge (schema : Schema) (record : ORecord)
    (s : StoredRecord)
    (hnd : ((attributesOf schema record.type).map Prod.fst).Nodup)
    (hidn : "id" ∉ (attributesOf schema record.type).map Prod.fst)
    (hidr : "id" ∉ (relationshipsOf schema record.type).map Prod.fst)
    (hdisj : ∀ p ∈ (attributesOf schema record.type).map Prod.fst,
      p ∉ (relationshipsOf schema record.type).map Prod.fst) :
    (∀ p ty v, (p, ty) ∈ attributesOf schema record.type →
      (match record.attributes with
       | some m => lookupLast m p
       | none => none) = some v →
      lookupLast (updateStored s (parseOrbitRecord schema record)).attrs p
        = (lookupLast s.attrs p).map (fun _ => v)) ∧
    (∀ p ty, (p, ty) ∈ attributesOf schema record.type →
      (match record.attributes with
       | some m => lookupLast m p
       | none => none) = none →
      lookupLast (updateStored s (parseOrbitRecord schema record)).attrs p
        = lookupLast s.attrs p) ∧
    (∀ p, p ∈ (relationshipsOf schema record.type).map Prod.fst →
      (match record.relationships with
       | some m => lookupLast m p
       | none => none) = none →
      lookupLast (updateStored s (parseOrbitRecord schema record)).fks p
        = lookupLast s.fks p ∧
      lookupLast (updateStored s (parseOrbitRecord schema record)).links p
        = lookupLast s.links p) := by
  refine ⟨?_, ?_, ?_⟩
  · intro p ty v hmem hval
    have hpn : p ∈ (attributesOf schema record.type).map Prod.fst :=
      List.mem_map.mpr ⟨(p, ty), hmem, rfl⟩
    have hpid : p ≠ "id" := fun h => hidn (h ▸ hpn)
    have hchar := parseOrbitRecord_attr_lookup schema record hnd p ty hmem
      hpid (hdisj p hpn)
    rw [hval] at hchar
    unfold updateStored
    rw [lookupLast_map_keyed]
    cases lookupLast s.attrs p <;> simp [patchAttrColumn, hchar]
  · intro p ty hmem hval
    have hpn : p ∈ (attributesOf schema record.type).map Prod.fst :=
      List.mem_map.mpr ⟨(p, ty), hmem, rfl⟩
    have hpid : p ≠ "id" := fun h => hidn (h ▸ hpn)
    have hchar := parseOrbitRecord_attr_lookup schema record hnd p ty hmem
      hpid (hdisj p hpn)
    rw [hval] at hchar
    unfold updateStored
    rw [lookupLast_map_keyed]
    cases lookupLast s.attrs p <;> simp [patchAttrColumn, hchar]
  · intro p hp homit
    have hpid : p ≠ "id" := fun h => hidr (h ▸ hp)
    have hpattr : p ∉ (attributesOf schema record.type).map Prod.fst :=
      fun ha => hdisj p ha hp
    have hnone := parseOrbitRecord_rel_omitted schema record p hpid hpattr homit
    constructor
    · unfold updateStored
      rw [lookupLast_map_keyed]
      cases lookupLast s.fks p <;> simp [patchFkColumn, hnone]
    · unfold updateStored
      rw [lookupLast_map_keyed]
      cases lookupLast s.links p <;> simp [patchLinks, hnone]

/-- Witness for C6: updating the stored author `{firstName: "P", lastName:
"Chavard"}` with the payload `{firstName: "Paul"}` overwrites `firstName`,
keeps `lastName`, and leaves the untouched `articles` link set intact. -/
theorem updateRecord_merge_witness :
    lookupLast (updateStored authorStored
        (parseOrbitRecord demoSchema authorPayload)).attrs "firstName"
      = some (Value.vStr "Paul") ∧
    lookupLast (updateStored authorStored
        (parseOrbitRecord demoSchema authorPayload)).attrs "lastName"
      = some (Value.vStr "Chavard") ∧
    lookupLast (updateStored authorStored
        (parseOrbitRecord demoSchema authorPayload)).links "articles"
      = some ["1", "2"] := by
  have h := updateRecord_merge demoSchema authorPayload authorStored
    (by decide) (by decide) (by decide) (by decide)
  refine ⟨?_, ?_, ?_⟩
  · rw [h.1 "firstName" "string" (Value.vStr "Paul") (by decide) (by decide)]
    decide
  · rw [h.2.1 "lastName" "string" (by decide) (by decide)]
    decide
  · rw [(h.2.2 "articles" (by decide) (by decide)).2]
    decide

/-- C9 (corrected): when `createdAt` and `updatedAt` are NOT declared as
attributes of the written type, the stored timestamps are server-assigned and
independent of anything the payload carries — after an insert both equal the
server time, and after an update `updated_at` is the server time while
`created_at` keeps its prior value. -/
theorem timestamps_server_assigned (schema : Schema) (record : ORecord)
    (now : String) (prior : Value)
    (h1 : "createdAt" ∉ (attributesOf schema record.type).map Prod.fst)
    (h2 : "updatedAt" ∉ (attributesOf schema record.type).map Prod.fst) :
    insertTimestamps schema record now = (Value.vStr now, Value.vStr now) ∧
    updateTimestamps schema record prior now = (prior, Value.vStr now) := by
  have hu := parseOrbitRecord_lookup_not_val schema record "updatedAt"
    (by decide) h2
  have hc := parseOrbitRecord_lookup_not_val schema record "createdAt"
    (by decide) h1
  constructor
  · unfold insertTimestamps
    cases hl : lookupLast (parseOrbitRecord schema record) "updatedAt" with
    | none => rfl
    | some pv =>
      cases pv with
      | val v => exact absurd hl (hu v)
      | idv s => rfl
      | relOne i => rfl
      | relMany ids => rfl
      | ill => rfl
  · unfold updateTimestamps
    cases hl : lookupLast (parseOrbitRecord schema record) "createdAt" with
    | none => rfl
    | some pv =>
      cases pv with
      | val v => exact absurd hl (hc v)
      | idv s => rfl
      | relOne i => rfl
      | relMany ids => rfl
      | ill => rfl

/-- C9 counterexample: the repository's own test schema declares `createdAt`
and `updatedAt` as datetime attributes of `article`; with that declaration a
payload value for them IS accepted — an insert carrying `updatedAt:
"1999-..."` stores it as `updated_at` (the insert hook only overwrites
`createdAt`), and an update carrying `createdAt: "1999-..."` overwrites the
stored `created_at` (the update hook only overwrites `updatedAt`). -/
theorem timestamps_payload_leak :
    insertTimestamps demoSchema articlePayloadUpdatedAt "2026-10-12T00:00:00.000Z"
      = (Value.vStr "2026-10-12T00:00:00.000Z",
         Value.vStr "1999-01-01T00:00:00.000Z") ∧
    updateTimestamps demoSchema articlePayloadCreatedAt
        (Value.vStr "2020-05-05T00:00:00.000Z") "2026-10-12T00:00:00.000Z"
      = (Value.vStr "1999-01-01T00:00:00.000Z",
         Value.vStr "2026-10-12T00:00:00.000Z") := by
  exact ⟨by decide, by decide⟩

/-- Witness for C9 on the author type, which declares no timestamp
attributes. -/
theorem timestamps_server_assigned_witness :
    insertTimestamps demoSchema authorPayload "2026-10-12T00:00:00.000Z"
      = (Value.vStr "2026-10-12T00:00:00.000Z",
         Value.vStr "2026-10-12T00:00:00.000Z") ∧
    updateTimestamps demoSchema authorPayload
        (Value.vStr "2020-05-05T00:00:00.000Z") "2026-10-12T00:00:00.000Z"
      = (Value.vStr "2020-05-05T00:00:00.000Z",
         Value.vStr "2026-10-12T00:00:00.000Z") :=
  timestamps_server_assigned demoSchema authorPayload "2026-10-12T00:00:00.000Z"
    (Value.vStr "2020-05-05T00:00:00.000Z") (by decide) (by decide)

end OrbitSql
